import Mathlib

/-!
Shallow embedding of the expense approval service of src/back/app.py.

The in-memory dictionaries USERS and EXPENSES of the source are modelled
as association lists keyed by the id field of each record.  Python float
amounts are modelled as rationals, and datetime.now() as an opaque
natural-number timestamp supplied by the caller.  Handlers that can fail
return Except: an uncaught Python IndexError is Except.error "IndexError".
The HTTP plumbing (routing, JSON parsing, the require_role decorator) is
outside the approval engine and is not embedded; the functions below are
the bodies of the corresponding handlers after the expense has been
looked up.
-/

/-- One step of an approval flow: a required role and a display label
(a dict with keys role and step_name in the source). -/
structure Step where
  role : String
  step_name : String
deriving DecidableEq

/-- A record of the USERS dictionary (app.py lines 132-157, 204-210). -/
structure UserRec where
  id : String
  company_id : String
  name : String
  role : String
  manager_id : Option String
deriving DecidableEq

/-- One entry of an expense history list (app.py lines 322-328, 355-361). -/
structure HistoryEntry where
  timestamp : Nat
  action : String
  step : String
  approver_id : String
  comment : String
deriving DecidableEq

/-- A record of the EXPENSES dictionary (app.py lines 236-251). -/
structure Expense where
  id : String
  user_id : String
  company_id : String
  amount : ℚ
  currency : String
  converted_amount : ℚ
  company_currency : String
  category : String
  description : String
  date : String
  status : String
  approval_flow : List Step
  current_approver_index : Nat
  history : List HistoryEntry
deriving DecidableEq

/-- DEFAULT_APPROVAL_FLOW of app.py lines 11-15. -/
def DEFAULT_APPROVAL_FLOW : List Step :=
  [{ role := "Manager", step_name := "Manager Approval" },
   { role := "Finance", step_name := "Finance Review" },
   { role := "Admin", step_name := "Director Sign-off" }]

/-- USERS.get(user_id): lookup in the association-list model of USERS. -/
def find_user (users : List UserRec) (user_id : String) : Option UserRec :=
  users.find? (fun u => u.id == user_id)

/-- get_user_role of app.py lines 23-25: the role of the user, None when
the user is unknown. -/
def get_user_role (users : List UserRec) (user_id : String) : Option String :=
  (find_user users user_id).map (fun u => u.role)

/-- The manager_id lookup used on app.py line 109 and line 299: None when
the user is unknown or has no manager. -/
def manager_of (users : List UserRec) (employee_id : String) : Option String :=
  (find_user users employee_id).bind (fun u => u.manager_id)

/-- Uppercasing of one ASCII character, as str.upper does on the currency
codes on app.py line 58. -/
def upper_char (c : Char) : Char :=
  if 'a' ≤ c ∧ c ≤ 'z' then Char.ofNat (c.toNat - 32) else c

/-- String uppercasing, character by character, modelling str.upper. -/
def str_upper (s : String) : String :=
  ⟨s.data.map upper_char⟩

/-- The nested mock_rates dictionary of app.py lines 51-55, with the float
rates written as the corresponding rationals. -/
def mock_rates : List (String × List (String × ℚ)) :=
  [("USD", [("EUR", 93/100), ("INR", 83), ("USD", 1)]),
   ("EUR", [("USD", 108/100), ("INR", 89), ("EUR", 1)]),
   ("INR", [("USD", 12/1000), ("EUR", 11/1000), ("INR", 1)])]

/-- The lookup mock_rates[f][t] of app.py line 58; none models the KeyError
caught on line 61. -/
def lookup_rate (f t : String) : Option ℚ :=
  (mock_rates.find? (fun p => p.1 == f)).bind
    (fun p => (p.2.find? (fun q => q.1 == t)).map (fun q => q.2))

/-- Round to the nearest integer, ties to even, modelling Python round
applied on app.py line 59. -/
def round_half_even (q : ℚ) : ℤ :=
  let f := ⌊q⌋
  if q - f < 1/2 then f
  else if (1:ℚ)/2 < q - f then f + 1
  else if f % 2 = 0 then f else f + 1

/-- Rounding to 2 decimal places, modelling round(x, 2) of app.py line 59. -/
def round2 (q : ℚ) : ℚ :=
  (round_half_even (q * 100) : ℚ) / 100

/-- mock_currency_conversion of app.py lines 44-62. -/
def mock_currency_conversion (from_currency to_currency : String) (amount : ℚ) : ℚ :=
  if from_currency = to_currency then amount
  else
    match lookup_rate (str_upper from_currency) (str_upper to_currency) with
    | some rate => round2 (amount * rate)
    | none => amount

/-- process_next_approval_step of app.py lines 64-83, acting on an expense
that is present in EXPENSES.  Returns the updated expense and the message. -/
def process_next_approval_step (e : Expense) : Expense × String :=
  if h : e.current_approver_index + 1 < e.approval_flow.length then
    let next := e.approval_flow.get ⟨e.current_approver_index + 1, h⟩
    ({ e with current_approver_index := e.current_approver_index + 1,
              status := "Pending (" ++ next.step_name ++ ")" },
     "Moved to next step: " ++ next.step_name)
  else
    ({ e with status := "Approved" }, "Expense fully approved.")

/-- check_can_approve of app.py lines 85-116. -/
def check_can_approve (users : List UserRec) (user_id : String) (e : Expense) :
    Bool × Option String :=
  if e.status = "Approved" ∨ e.status = "Rejected" then
    (false, some "This expense is already finalized.")
  else
    let user_role := get_user_role users user_id
    -- company_id is computed on app.py line 93 and never used afterwards
    let company_id := (find_user users user_id).map (fun u => u.company_id)
    if user_role = some "Admin" then
      (true, none)
    else
      if h : e.current_approver_index < e.approval_flow.length then
        let required_role := (e.approval_flow.get ⟨e.current_approver_index, h⟩).role
        if user_role = some required_role then
          if e.current_approver_index = 0 ∧ required_role = "Manager" then
            if manager_of users e.user_id = some user_id then
              (true, none)
            else
              (false, some "You are not the assigned manager for this employee.")
          else
            (true, none)
        else
          (false, some "You do not have the required role/authority for the current approval step.")
      else
        (false, some "You do not have the required role/authority for the current approval step.")

/-- approve_expense of app.py lines 306-335, after the expense lookup: the
check, the history append with the step label at the current index, then
process_next_approval_step.  The comment defaults to "Approved." when
absent (line 312). -/
def approve_expense (users : List UserRec) (user_id : String) (comment : Option String)
    (ts : Nat) (e : Expense) : Except String (Expense × String) :=
  let comment := comment.getD "Approved."
  match check_can_approve users user_id e with
  | (false, reason) => Except.error (reason.getD "")
  | (true, _) =>
    match e.approval_flow[e.current_approver_index]? with
    | none => Except.error "IndexError"
    | some step =>
      let e1 := { e with history := e.history ++
        [{ timestamp := ts, action := "Approved", step := step.step_name,
           approver_id := user_id, comment := comment }] }
      Except.ok (process_next_approval_step e1)

/-- reject_expense of app.py lines 337-366, after the expense lookup: the
check, status set to "Rejected", and the history append with the step label
at the current (unchanged) index.  The comment defaults to "Rejected."
(line 343). -/
def reject_expense (users : List UserRec) (user_id : String) (comment : Option String)
    (ts : Nat) (e : Expense) : Except String Expense :=
  let comment := comment.getD "Rejected."
  match check_can_approve users user_id e with
  | (false, reason) => Except.error (reason.getD "")
  | (true, _) =>
    match e.approval_flow[e.current_approver_index]? with
    | none => Except.error "IndexError"
    | some step =>
      Except.ok { e with status := "Rejected",
                         history := e.history ++
        [{ timestamp := ts, action := "Rejected", step := step.step_name,
           approver_id := user_id, comment := comment }] }

/-- view_pending_expenses of app.py lines 273-304: the loop over
EXPENSES.values() is the filter, in iteration order.  The caller company
lookup USERS[user_id][company_id] is modelled with an Option compare, so an
unknown caller (which would raise KeyError in the source, but is excluded
by the route decorator) selects nothing. -/
def view_pending_expenses (users : List UserRec) (user_id : String)
    (expenses : List Expense) : List Expense :=
  let user_role := get_user_role users user_id
  let company_id := (find_user users user_id).map (fun u => u.company_id)
  expenses.filter (fun e =>
    if company_id ≠ some e.company_id ∨ e.status = "Approved" ∨ e.status = "Rejected" then
      false
    else
      if h : e.current_approver_index < e.approval_flow.length then
        let required_role := (e.approval_flow.get ⟨e.current_approver_index, h⟩).role
        if user_role = some "Admin" then
          true
        else
          if user_role = some required_role then
            if required_role = "Manager" then
              decide (manager_of users e.user_id = some user_id)
            else
              true
          else
            false
      else
        false)

/-!
Reference model of the expense-creation line 248 of app.py,
"approval_flow": company[approval_config].  In Python this assignment
copies a reference to the list object, not the list.  The heap of list
objects is made explicit: a reference is an index into the heap, the
company field approval_config holds a reference, and the expense field
approval_flow holds a reference after submission.
-/

/-- Explicit heap of approval-flow list objects, the reference held by the
company approval_config field, and the reference held by the expense
approval_flow field once an expense was submitted. -/
structure FlowHeapState where
  heap : List (List Step)
  approval_config_ref : Nat
  expense_flow_ref : Option Nat
deriving DecidableEq

/-- Line 248 of app.py: the new expense receives the very reference stored
in company approval_config; no copy of the list is made. -/
def submit_captures_flow (s : FlowHeapState) : FlowHeapState :=
  { s with expense_flow_ref := some s.approval_config_ref }

/-- An in-place mutation of the list object that the company template
references (e.g. company[approval_config][0][role] = ... in Python). -/
def mutate_company_template (s : FlowHeapState) (f : List Step → List Step) : FlowHeapState :=
  { s with heap :=
      s.heap.set s.approval_config_ref (f (s.heap.getD s.approval_config_ref [])) }

/-- The list of steps the expense approval_flow field dereferences to. -/
def expense_flow_value (s : FlowHeapState) : Option (List Step) :=
  s.expense_flow_ref.map (fun r => s.heap.getD r [])

/-!
Concrete data used as inputs in witnesses and counterexamples: the users
seeded by the bootstrap of app.py lines 118-166 (ids made readable), plus
a second Manager and a Finance user in the same company, an outside
Finance user in another company, and sample expenses.
-/

/-- The seeded Admin user. -/
def adminU : UserRec :=
  { id := "admin-user-123", company_id := "co-1", name := "Admin User",
    role := "Admin", manager_id := none }

/-- The seeded Manager, the assigned manager of the seeded Employee. -/
def janeU : UserRec :=
  { id := "mgr-1", company_id := "co-1", name := "Jane Manager",
    role := "Manager", manager_id := some "admin-user-123" }

/-- The seeded Employee, reporting to the Manager. -/
def tomU : UserRec :=
  { id := "emp-1", company_id := "co-1", name := "Tom Employee",
    role := "Employee", manager_id := some "mgr-1" }

/-- A Finance user in the same company. -/
def finU : UserRec :=
  { id := "fin-1", company_id := "co-1", name := "Fred Finance",
    role := "Finance", manager_id := none }

/-- A second Manager in the same company, not assigned to the Employee. -/
def otherMgrU : UserRec :=
  { id := "mgr-2", company_id := "co-1", name := "Other Manager",
    role := "Manager", manager_id := none }

/-- The USERS store used by the concrete scenarios. -/
def usersC : List UserRec := [adminU, janeU, tomU, finU, otherMgrU]

/-- A Finance user of a different company, used for the cross-company
scenario of claim C10. -/
def finOther : UserRec :=
  { id := "fin-2", company_id := "co-2", name := "Outside Finance",
    role := "Finance", manager_id := none }

/-- The expense of the spec scenario: 100 EUR submitted by the Employee,
pending at step 0 of the default flow. -/
def baseExpense : Expense :=
  { id := "exp-1", user_id := "emp-1", company_id := "co-1",
    amount := 100, currency := "EUR", converted_amount := 108,
    company_currency := "USD", category := "Travel", description := "Trip",
    date := "2024-01-01", status := "Pending (Manager Approval)",
    approval_flow := DEFAULT_APPROVAL_FLOW, current_approver_index := 0,
    history := [] }

/-- The same expense pending at step 1 (Finance Review). -/
def expStep1 : Expense :=
  { baseExpense with status := "Pending (Finance Review)", current_approver_index := 1 }

/-- The same expense pending at the last step (Director Sign-off). -/
def expLast : Expense :=
  { baseExpense with status := "Pending (Director Sign-off)", current_approver_index := 2 }

/-- The same expense once fully approved. -/
def expDone : Expense :=
  { baseExpense with status := "Approved", current_approver_index := 2 }

/-- The same expense once rejected. -/
def expRejected : Expense := { baseExpense with status := "Rejected" }

/-- A two-step flow whose Manager step is not the first step, exposing the
difference between check_can_approve and the pending-list filter. -/
def flowFM : List Step :=
  [{ role := "Finance", step_name := "Finance Review" },
   { role := "Manager", step_name := "Manager Check" }]

/-- An expense of the same company pending at the Manager step at index 1
of flowFM. -/
def expFM : Expense :=
  { baseExpense with approval_flow := flowFM, current_approver_index := 1,
                     status := "Pending (Manager Check)" }

/-- The expense produced by the assigned Manager approving baseExpense at
timestamp 7. -/
def expAfterJane : Expense :=
  { baseExpense with
      current_approver_index := 1,
      status := "Pending (Finance Review)",
      history := [{ timestamp := 7, action := "Approved", step := "Manager Approval",
                    approver_id := "mgr-1", comment := "Approved." }] }

/-- Heap state at bootstrap: one flow list object, referenced by the
company approval_config field; no expense submitted yet. -/
def s0C2 : FlowHeapState :=
  { heap := [DEFAULT_APPROVAL_FLOW], approval_config_ref := 0, expense_flow_ref := none }

/-- Heap state after an expense submission (app.py line 248). -/
def s1C2 : FlowHeapState := submit_captures_flow s0C2

/-- Heap state after a later in-place mutation of the company template. -/
def s2C2 : FlowHeapState :=
  mutate_company_template s1C2 (fun l => l.set 0 { role := "Finance", step_name := "Changed Step" })

/-!
Helper lemmas shared by the claim theorems.
-/

/-- Terminal expenses short-circuit check_can_approve with the finalized
message (app.py lines 89-90), before any role or company is read. -/
theorem check_can_approve_terminal (users : List UserRec) (uid : String) (e : Expense)
    (h : e.status = "Approved" ∨ e.status = "Rejected") :
    check_can_approve users uid e = (false, some "This expense is already finalized.") := by
  unfold check_can_approve
  rw [if_pos h]

/-- Unfolding of check_can_approve on a non-terminal expense, with the two
let bindings of the source inlined. -/
theorem check_can_approve_eq (users : List UserRec) (uid : String) (e : Expense)
    (hpend : ¬(e.status = "Approved" ∨ e.status = "Rejected")) :
    check_can_approve users uid e =
      (if get_user_role users uid = some "Admin" then ((true : Bool), (none : Option String))
       else
         if h : e.current_approver_index < e.approval_flow.length then
           (if get_user_role users uid =
               some (e.approval_flow.get ⟨e.current_approver_index, h⟩).role then
             (if e.current_approver_index = 0 ∧
                 (e.approval_flow.get ⟨e.current_approver_index, h⟩).role = "Manager" then
               (if manager_of users e.user_id = some uid then (true, none)
                else (false, some "You are not the assigned manager for this employee."))
             else (true, none))
           else
             (false, some "You do not have the required role/authority for the current approval step."))
         else
           (false, some "You do not have the required role/authority for the current approval step.")) := by
  unfold check_can_approve
  rw [if_neg hpend]

/-- Characterization of a passing check_can_approve on a non-terminal
expense: Admin, or a role match at an in-range step with the manager
relationship additionally required when that step is the first and asks
for Manager. -/
theorem check_allowed_iff (users : List UserRec) (uid : String) (e : Expense)
    (hpend : ¬(e.status = "Approved" ∨ e.status = "Rejected")) :
    (check_can_approve users uid e).1 = true ↔
      (get_user_role users uid = some "Admin"
       ∨ ∃ step, e.approval_flow[e.current_approver_index]? = some step
          ∧ get_user_role users uid = some step.role
          ∧ (e.current_approver_index = 0 → step.role = "Manager" →
              manager_of users e.user_id = some uid)) := by
  rw [check_can_approve_eq users uid e hpend]
  by_cases hadm : get_user_role users uid = some "Admin"
  · rw [if_pos hadm]
    simp [hadm]
  · rw [if_neg hadm]
    by_cases hidx : e.current_approver_index < e.approval_flow.length
    · rw [dif_pos hidx]
      have hsome : e.approval_flow[e.current_approver_index]? =
          some (e.approval_flow.get ⟨e.current_approver_index, hidx⟩) :=
        List.getElem?_eq_getElem hidx
      by_cases hrole : get_user_role users uid =
          some (e.approval_flow.get ⟨e.current_approver_index, hidx⟩).role
      · rw [if_pos hrole]
        by_cases hfirst : e.current_approver_index = 0 ∧
            (e.approval_flow.get ⟨e.current_approver_index, hidx⟩).role = "Manager"
        · rw [if_pos hfirst]
          by_cases hmgr : manager_of users e.user_id = some uid
          · rw [if_pos hmgr]
            refine iff_of_true rfl (Or.inr ⟨_, hsome, hrole, fun _ _ => hmgr⟩)
          · rw [if_neg hmgr]
            refine iff_of_false (by simp) ?_
            rintro (h | ⟨step, hs, hr, himp⟩)
            · exact hadm h
            · rw [hsome] at hs
              obtain rfl : step = e.approval_flow.get ⟨e.current_approver_index, hidx⟩ :=
                (Option.some.injEq _ _ ▸ hs).symm
              exact hmgr (himp hfirst.1 hfirst.2)
        · rw [if_neg hfirst]
          refine iff_of_true rfl (Or.inr ⟨_, hsome, hrole, fun h0 hM => absurd ⟨h0, hM⟩ hfirst⟩)
      · rw [if_neg hrole]
        refine iff_of_false (by simp) ?_
        rintro (h | ⟨step, hs, hr, himp⟩)
        · exact hadm h
        · rw [hsome] at hs
          obtain rfl : step = e.approval_flow.get ⟨e.current_approver_index, hidx⟩ :=
            (Option.some.injEq _ _ ▸ hs).symm
          exact hrole hr
    · rw [dif_neg hidx]
      refine iff_of_false (by simp) ?_
      rintro (h | ⟨step, hs, _, _⟩)
      · exact hadm h
      · rw [List.getElem?_eq_none (by omega)] at hs
        exact Option.noConfusion hs

/-- The index after process_next_approval_step: incremented when a next
step exists, unchanged otherwise. -/
theorem process_next_index (e : Expense) :
    (process_next_approval_step e).1.current_approver_index =
      (if e.current_approver_index + 1 < e.approval_flow.length
       then e.current_approver_index + 1 else e.current_approver_index) := by
  unfold process_next_approval_step
  by_cases h : e.current_approver_index + 1 < e.approval_flow.length
  · rw [dif_pos h, if_pos h]
  · rw [dif_neg h, if_neg h]

/-- process_next_approval_step never touches the history list. -/
theorem process_next_history (e : Expense) :
    (process_next_approval_step e).1.history = e.history := by
  unfold process_next_approval_step
  by_cases h : e.current_approver_index + 1 < e.approval_flow.length
  · rw [dif_pos h]
  · rw [dif_neg h]

/-!
Claim theorems.
-/

/-- C1, counterexample to the claim as stated: a successful approve call on
an expense pending at the last step of its flow (expLast, index 2 of the
3-step default flow) succeeds yet leaves current_approver_index unchanged
at 2, so a successful approval does not always increase the index by 1. -/
theorem C1_counterexample :
    (approve_expense usersC "admin-user-123" none 0 expLast).isOk = true
    ∧ (approve_expense usersC "admin-user-123" none 0 expLast).toOption.map
        (fun r => r.1.current_approver_index) = some expLast.current_approver_index := by
  decide

/-- C1 (amended): a successful approve call increases current_approver_index
by exactly 1 when a next step exists (index + 1 < length of the flow) and
leaves it unchanged when the approved step is the last one; a successful
reject call leaves the index unchanged; and once the status is terminal both
calls fail with the finalized message, changing nothing. -/
theorem C1_amended (users : List UserRec) (uid : String) (c : Option String)
    (ts : Nat) (e : Expense) :
    ((approve_expense users uid c ts e).toOption.map (fun r => r.1.current_approver_index)
      = (approve_expense users uid c ts e).toOption.map (fun _ =>
          if e.current_approver_index + 1 < e.approval_flow.length
          then e.current_approver_index + 1
          else e.current_approver_index))
    ∧ ((reject_expense users uid c ts e).toOption.map (fun r => r.current_approver_index)
      = (reject_expense users uid c ts e).toOption.map (fun _ => e.current_approver_index))
    ∧ ((e.status = "Approved" ∨ e.status = "Rejected") →
        approve_expense users uid c ts e = Except.error "This expense is already finalized."
        ∧ reject_expense users uid c ts e = Except.error "This expense is already finalized.") := by
  refine ⟨?_, ?_, ?_⟩
  · rcases hc : check_can_approve users uid e with ⟨b, r⟩
    simp only [approve_expense, hc]
    cases b
    · rfl
    · cases hs : e.approval_flow[e.current_approver_index]? with
      | none => rfl
      | some step =>
        simp only [Except.toOption, Option.map]
        rw [process_next_index]
  · rcases hc : check_can_approve users uid e with ⟨b, r⟩
    simp only [reject_expense, hc]
    cases b
    · rfl
    · cases hs : e.approval_flow[e.current_approver_index]? with
      | none => rfl
      | some step => rfl
  · intro hterm
    have hc := check_can_approve_terminal users uid e hterm
    constructor
    · simp only [approve_expense, hc]
      rfl
    · simp only [reject_expense, hc]
      rfl

/-- C1, witness for the amended theorem: on the already-approved expense
expDone both calls fail with the finalized message. -/
theorem C1_amended_witness :
    (expDone.status = "Approved" ∨ expDone.status = "Rejected")
    ∧ approve_expense usersC "admin-user-123" none 0 expDone
        = Except.error "This expense is already finalized."
    ∧ reject_expense usersC "admin-user-123" none 0 expDone
        = Except.error "This expense is already finalized." := by
  have h := (C1_amended usersC "admin-user-123" none 0 expDone).2.2 (Or.inl rfl)
  exact ⟨Or.inl rfl, h.1, h.2⟩

/-- C2: line 248 of app.py stores into the expense the reference held by
the company approval_config field, not a copy of the list, so after the
submission the two fields reference the same list object; an in-place
mutation of the company template therefore changes the flow the in-flight
expense dereferences to, contradicting capture by value. -/
theorem C2_aliasing :
    s1C2.expense_flow_ref = some s1C2.approval_config_ref
    ∧ expense_flow_value s1C2 = some DEFAULT_APPROVAL_FLOW
    ∧ expense_flow_value s2C2 ≠ some DEFAULT_APPROVAL_FLOW
    ∧ expense_flow_value s2C2 =
        some (DEFAULT_APPROVAL_FLOW.set 0 { role := "Finance", step_name := "Changed Step" }) := by
  decide

/-- C3: on a terminal expense (status Approved or Rejected) and for every
acting user, Admin included, check_can_approve denies with exactly the
finalized message, and both approve_expense and reject_expense return that
error, producing no updated expense: status, index and history are
untouched. -/
theorem C3_terminal_immutable (users : List UserRec) (uid : String) (c : Option String)
    (ts : Nat) (e : Expense)
    (hterm : e.status = "Approved" ∨ e.status = "Rejected") :
    check_can_approve users uid e = (false, some "This expense is already finalized.")
    ∧ approve_expense users uid c ts e = Except.error "This expense is already finalized."
    ∧ reject_expense users uid c ts e = Except.error "This expense is already finalized." := by
  have hc := check_can_approve_terminal users uid e hterm
  refine ⟨hc, ?_, ?_⟩
  · simp only [approve_expense, hc]
    rfl
  · simp only [reject_expense, hc]
    rfl

/-- C3, witness: the rejected expense expRejected is denied for the Finance
user with the finalized message. -/
theorem C3_witness :
    (expRejected.status = "Approved" ∨ expRejected.status = "Rejected")
    ∧ check_can_approve usersC "fin-1" expRejected
        = (false, some "This expense is already finalized.") := by
  exact ⟨Or.inr rfl, (C3_terminal_immutable usersC "fin-1" none 0 expRejected (Or.inr rfl)).1⟩

/-- C4: on a pending expense at index 0 whose first step requires Manager,
a user whose role is Manager (hence not Admin) passes check_can_approve
exactly when the expense owner has that user recorded as manager; any
other Manager is denied with the assigned-manager message, which differs
from the wrong-role message. -/
theorem C4_manager_step_gate (users : List UserRec) (uid : String) (e : Expense) (step : Step)
    (hpend : ¬(e.status = "Approved" ∨ e.status = "Rejected"))
    (hidx : e.current_approver_index = 0)
    (hstep : e.approval_flow[0]? = some step)
    (hrole : step.role = "Manager")
    (huser : get_user_role users uid = some "Manager") :
    ((check_can_approve users uid e).1 = true ↔
      manager_of users e.user_id = some uid)
    ∧ (manager_of users e.user_id ≠ some uid →
        check_can_approve users uid e =
          (false, some "You are not the assigned manager for this employee."))
    ∧ ("You are not the assigned manager for this employee." : String) ≠
        "You do not have the required role/authority for the current approval step." := by
  have hstep0 : e.approval_flow[e.current_approver_index]? = some step := by
    rw [hidx]; exact hstep
  obtain ⟨hlt, hget⟩ := List.getElem?_eq_some.mp hstep0
  have hg : e.approval_flow.get ⟨e.current_approver_index, hlt⟩ = step := hget
  have hkey : check_can_approve users uid e =
      (if manager_of users e.user_id = some uid then ((true : Bool), (none : Option String))
       else (false, some "You are not the assigned manager for this employee.")) := by
    rw [check_can_approve_eq users uid e hpend,
      if_neg (show ¬(get_user_role users uid = some "Admin") by rw [huser]; simp),
      dif_pos hlt, hg, hrole, huser, if_pos rfl, if_pos ⟨hidx, rfl⟩]
  refine ⟨?_, fun hm => by rw [hkey, if_neg hm], by decide⟩
  by_cases hm : manager_of users e.user_id = some uid
  · rw [hkey, if_pos hm]
    simp [hm]
  · rw [hkey, if_neg hm]
    simp [hm]

/-- C4, witness: the assigned manager of the seeded Employee is allowed on
baseExpense, while the other Manager of the same company is denied with
the assigned-manager message. -/
theorem C4_witness :
    manager_of usersC baseExpense.user_id = some "mgr-1"
    ∧ (check_can_approve usersC "mgr-1" baseExpense).1 = true
    ∧ manager_of usersC baseExpense.user_id ≠ some "mgr-2"
    ∧ check_can_approve usersC "mgr-2" baseExpense
        = (false, some "You are not the assigned manager for this employee.") := by
  have h1 := C4_manager_step_gate usersC "mgr-1" baseExpense
    { role := "Manager", step_name := "Manager Approval" } (by decide) rfl (by decide) rfl (by decide)
  have h2 := C4_manager_step_gate usersC "mgr-2" baseExpense
    { role := "Manager", step_name := "Manager Approval" } (by decide) rfl (by decide) rfl (by decide)
  exact ⟨by decide, h1.1.mpr (by decide), by decide, h2.2.1 (by decide)⟩

/-- C5: on any non-terminal expense a user whose role is Admin passes
check_can_approve unconditionally, with no step-role or manager check, so
with the index in range both approve_expense and reject_expense succeed. -/
theorem C5_admin_override (users : List UserRec) (uid : String) (c : Option String)
    (ts : Nat) (e : Expense)
    (hpend : ¬(e.status = "Approved" ∨ e.status = "Rejected"))
    (hadmin : get_user_role users uid = some "Admin") :
    check_can_approve users uid e = (true, none)
    ∧ (e.current_approver_index < e.approval_flow.length →
        (approve_expense users uid c ts e).isOk = true
        ∧ (reject_expense users uid c ts e).isOk = true) := by
  have hc : check_can_approve users uid e = (true, none) := by
    rw [check_can_approve_eq users uid e hpend, if_pos hadmin]
  refine ⟨hc, fun hidx => ⟨?_, ?_⟩⟩
  · simp only [approve_expense, hc, List.getElem?_eq_getElem hidx]
    rfl
  · simp only [reject_expense, hc, List.getElem?_eq_getElem hidx]
    rfl

/-- C5, witness: the Admin is allowed, and can approve and reject, on the
expense pending at index 1 (a Finance step, not an Admin step). -/
theorem C5_witness :
    ¬(expStep1.status = "Approved" ∨ expStep1.status = "Rejected")
    ∧ get_user_role usersC "admin-user-123" = some "Admin"
    ∧ check_can_approve usersC "admin-user-123" expStep1 = (true, none)
    ∧ (approve_expense usersC "admin-user-123" none 0 expStep1).isOk = true
    ∧ (reject_expense usersC "admin-user-123" none 0 expStep1).isOk = true := by
  have h := C5_admin_override usersC "admin-user-123" none 0 expStep1 (by decide) (by decide)
  have h2 := h.2 (by decide)
  exact ⟨by decide, by decide, h.1, h2.1, h2.2⟩

/-- C6: advancing after a successful approval increments the index and sets
status to Pending with the label of the new current step when a next index
exists in the flow, and otherwise sets status directly to Approved, with
the index left as is and no pending state beyond the flow length. -/
theorem C6_advance (e : Expense) :
    (∀ step, e.approval_flow[e.current_approver_index + 1]? = some step →
      process_next_approval_step e =
        ({ e with current_approver_index := e.current_approver_index + 1,
                  status := "Pending (" ++ step.step_name ++ ")" },
         "Moved to next step: " ++ step.step_name))
    ∧ (e.approval_flow[e.current_approver_index + 1]? = none →
      process_next_approval_step e = ({ e with status := "Approved" }, "Expense fully approved.")) := by
  constructor
  · intro step hs
    obtain ⟨hlt, hget⟩ := List.getElem?_eq_some.mp hs
    have hg : e.approval_flow.get ⟨e.current_approver_index + 1, hlt⟩ = step := hget
    unfold process_next_approval_step
    rw [dif_pos hlt, hg]
  · intro hs
    have hge : e.approval_flow.length ≤ e.current_approver_index + 1 :=
      List.getElem?_eq_none_iff.mp hs
    unfold process_next_approval_step
    rw [dif_neg (by omega)]

/-- C6, witness: from step 0 of baseExpense the advance moves to Pending
(Finance Review), and from the last step of expLast it sets Approved. -/
theorem C6_witness :
    baseExpense.approval_flow[baseExpense.current_approver_index + 1]?
        = some { role := "Finance", step_name := "Finance Review" }
    ∧ process_next_approval_step baseExpense =
        ({ baseExpense with
             current_approver_index := baseExpense.current_approver_index + 1,
             status := "Pending (" ++ "Finance Review" ++ ")" },
         "Moved to next step: " ++ "Finance Review")
    ∧ expLast.approval_flow[expLast.current_approver_index + 1]? = none
    ∧ process_next_approval_step expLast
        = ({ expLast with status := "Approved" }, "Expense fully approved.") := by
  refine ⟨by decide, ?_, by decide, ?_⟩
  · exact (C6_advance baseExpense).1 { role := "Finance", step_name := "Finance Review" } (by decide)
  · exact (C6_advance expLast).2 (by decide)

/-- C7: every successful approve or reject appends exactly one history
entry, at the end of the existing list (so prior entries are preserved in
order), carrying the step label at the index before any advance, the
acting user and the comment with its default; and a successful reject sets
status to Rejected while leaving the index at its current value. -/
theorem C7_history_append (users : List UserRec) (uid : String) (c : Option String)
    (ts : Nat) (e : Expense) :
    (∀ e2 msg, approve_expense users uid c ts e = Except.ok (e2, msg) →
      ∃ step, e.approval_flow[e.current_approver_index]? = some step
        ∧ e2.history = e.history ++
            [{ timestamp := ts, action := "Approved", step := step.step_name,
               approver_id := uid, comment := c.getD "Approved." }])
    ∧ (∀ e2, reject_expense users uid c ts e = Except.ok e2 →
      ∃ step, e.approval_flow[e.current_approver_index]? = some step
        ∧ e2.history = e.history ++
            [{ timestamp := ts, action := "Rejected", step := step.step_name,
               approver_id := uid, comment := c.getD "Rejected." }]
        ∧ e2.status = "Rejected"
        ∧ e2.current_approver_index = e.current_approver_index) := by
  constructor
  · intro e2 msg hap
    rcases hc : check_can_approve users uid e with ⟨b, r⟩
    simp only [approve_expense, hc] at hap
    cases b
    · exact absurd hap (by simp)
    · cases hs : e.approval_flow[e.current_approver_index]? with
      | none => rw [hs] at hap; exact absurd hap (by simp)
      | some step =>
        rw [hs] at hap
        simp only [Except.ok.injEq] at hap
        refine ⟨step, rfl, ?_⟩
        have h1 : e2 = (process_next_approval_step
            { e with history := e.history ++
              [{ timestamp := ts, action := "Approved", step := step.step_name,
                 approver_id := uid, comment := c.getD "Approved." }] }).1 := by
          rw [hap]
        rw [h1, process_next_history]
  · intro e2 hrej
    rcases hc : check_can_approve users uid e with ⟨b, r⟩
    simp only [reject_expense, hc] at hrej
    cases b
    · exact absurd hrej (by simp)
    · cases hs : e.approval_flow[e.current_approver_index]? with
      | none => rw [hs] at hrej; exact absurd hrej (by simp)
      | some step =>
        rw [hs] at hrej
        simp only [Except.ok.injEq] at hrej
        refine ⟨step, rfl, ?_, ?_, ?_⟩
        · rw [← hrej]
        · rw [← hrej]
        · rw [← hrej]

/-- C7, witness: the assigned manager approving baseExpense at timestamp 7
appends exactly the Manager Approval entry with the default comment. -/
theorem C7_witness :
    ∃ step, baseExpense.approval_flow[baseExpense.current_approver_index]? = some step
      ∧ expAfterJane.history = baseExpense.history ++
          [{ timestamp := 7, action := "Approved", step := step.step_name,
             approver_id := "mgr-1", comment := (none : Option String).getD "Approved." }] := by
  exact (C7_history_append usersC "mgr-1" none 7 baseExpense).1 expAfterJane
    "Moved to next step: Finance Review" (by rfl)

/-- C8, counterexample to the claim as stated: with a flow whose Manager
step sits at index 1, a Manager of the same company who is not the owners
assigned manager passes check_can_approve (the manager check applies only
at index 0 there), yet the pending list excludes the expense, because the
list filter requires the manager relationship at every Manager step; so
pending-list membership does not coincide with the approve-authorization
rule. -/
theorem C8_counterexample :
    expFM.company_id = "co-1"
    ∧ ¬(expFM.status = "Approved" ∨ expFM.status = "Rejected")
    ∧ (check_can_approve usersC "mgr-2" expFM).1 = true
    ∧ view_pending_expenses usersC "mgr-2" [expFM] = [] := by
  decide

/-- C8 (amended): an expense is in the pending list of a caller exactly
when it occurs in the store, belongs to the caller company, passes
check_can_approve, has its index in range, and, for a non-Admin caller,
satisfies the manager relationship whenever the current step requires
Manager, at any index and not only index 0; on flows whose Manager steps
occur only at index 0 (such as the default flow) the extra condition
coincides with what check_can_approve already requires. -/
theorem C8_amended (users : List UserRec) (uid : String) (expenses : List Expense) (e : Expense) :
    e ∈ view_pending_expenses users uid expenses ↔
      (e ∈ expenses
       ∧ (find_user users uid).map (fun u => u.company_id) = some e.company_id
       ∧ (check_can_approve users uid e).1 = true
       ∧ e.current_approver_index < e.approval_flow.length
       ∧ (get_user_role users uid ≠ some "Admin" →
           ∀ step, e.approval_flow[e.current_approver_index]? = some step →
             step.role = "Manager" → manager_of users e.user_id = some uid)) := by
  simp only [view_pending_expenses, List.mem_filter]
  refine and_congr_right (fun _ => ?_)
  by_cases hco : (find_user users uid).map (fun u => u.company_id) = some e.company_id
  case neg =>
    refine iff_of_false ?_ (fun h => hco h.1)
    rw [if_pos (Or.inl hco)]
    simp
  case pos =>
  by_cases hterm : e.status = "Approved" ∨ e.status = "Rejected"
  case pos =>
    refine iff_of_false ?_ ?_
    · rcases hterm with h | h
      · rw [if_pos (Or.inr (Or.inl h))]; simp
      · rw [if_pos (Or.inr (Or.inr h))]; simp
    · rintro ⟨_, hchk, _⟩
      rw [check_can_approve_terminal users uid e hterm] at hchk
      exact Bool.noConfusion hchk
  case neg =>
  have hnc : ¬((find_user users uid).map (fun u => u.company_id) ≠ some e.company_id
      ∨ e.status = "Approved" ∨ e.status = "Rejected") := by
    rintro (h | h | h)
    · exact h hco
    · exact hterm (Or.inl h)
    · exact hterm (Or.inr h)
  rw [if_neg hnc]
  by_cases hidx : e.current_approver_index < e.approval_flow.length
  case neg =>
    rw [dif_neg hidx]
    exact iff_of_false (by simp) (fun h => hidx h.2.2.1)
  case pos =>
  rw [dif_pos hidx]
  have hsome : e.approval_flow[e.current_approver_index]? =
      some (e.approval_flow.get ⟨e.current_approver_index, hidx⟩) :=
    List.getElem?_eq_getElem hidx
  have hiff := check_allowed_iff users uid e hterm
  by_cases hadm : get_user_role users uid = some "Admin"
  case pos =>
    rw [if_pos hadm]
    refine iff_of_true rfl ⟨hco, hiff.mpr (Or.inl hadm), hidx, fun hne => absurd hadm hne⟩
  case neg =>
  rw [if_neg hadm]
  by_cases hrole : get_user_role users uid =
      some (e.approval_flow.get ⟨e.current_approver_index, hidx⟩).role
  case neg =>
    rw [if_neg hrole]
    refine iff_of_false (by simp) ?_
    rintro ⟨_, hchk, _, himp⟩
    rcases hiff.mp hchk with h | ⟨step, hs, hr, _⟩
    · exact hadm h
    · rw [hsome] at hs
      obtain rfl : step = e.approval_flow.get ⟨e.current_approver_index, hidx⟩ :=
        (Option.some.injEq _ _ ▸ hs).symm
      exact hrole hr
  case pos =>
  rw [if_pos hrole]
  by_cases hman : (e.approval_flow.get ⟨e.current_approver_index, hidx⟩).role = "Manager"
  case neg =>
    rw [if_neg hman]
    refine iff_of_true rfl ⟨hco, ?_, hidx, ?_⟩
    · exact hiff.mpr (Or.inr ⟨_, hsome, hrole, fun _ hM => absurd hM hman⟩)
    · intro _ step hs hM
      rw [hsome] at hs
      obtain rfl : step = e.approval_flow.get ⟨e.current_approver_index, hidx⟩ :=
        (Option.some.injEq _ _ ▸ hs).symm
      exact absurd hM hman
  case pos =>
  rw [if_pos hman]
  constructor
  · intro hdec
    have hm : manager_of users e.user_id = some uid := of_decide_eq_true hdec
    refine ⟨hco, ?_, hidx, fun _ _ _ _ => hm⟩
    exact hiff.mpr (Or.inr ⟨_, hsome, hrole, fun _ _ => hm⟩)
  · rintro ⟨_, _, _, himp⟩
    exact decide_eq_true (himp hadm _ hsome hman)

/-- C8, witness for the amended theorem: the assigned manager, a non-Admin
caller, sees baseExpense in the pending list. -/
theorem C8_witness :
    get_user_role usersC "mgr-1" ≠ some "Admin"
    ∧ baseExpense ∈ view_pending_expenses usersC "mgr-1" [baseExpense] := by
  refine ⟨by decide, ?_⟩
  refine (C8_amended usersC "mgr-1" [baseExpense] baseExpense).mpr
    ⟨List.mem_singleton_self baseExpense, by decide, by decide, by decide, ?_⟩
  intro _ step hs hM
  exact (by decide)

/-- C9: mock_currency_conversion returns the amount unchanged when the two
currency strings are equal (case-sensitively), returns the amount
unchanged when the uppercased pair is absent from the rate table, and only
when the currencies differ and the uppercased pair is in the table does it
return the amount multiplied by the rate and rounded to 2 decimal
places. -/
theorem C9_conversion (f t : String) (amount : ℚ) :
    (f = t → mock_currency_conversion f t amount = amount)
    ∧ (lookup_rate (str_upper f) (str_upper t) = none →
        mock_currency_conversion f t amount = amount)
    ∧ (∀ r, f ≠ t → lookup_rate (str_upper f) (str_upper t) = some r →
        mock_currency_conversion f t amount = round2 (amount * r)) := by
  refine ⟨?_, ?_, ?_⟩
  · intro h
    unfold mock_currency_conversion
    rw [if_pos h]
  · intro h
    unfold mock_currency_conversion
    by_cases he : f = t
    · rw [if_pos he]
    · rw [if_neg he, h]
  · intro r hne hr
    unfold mock_currency_conversion
    rw [if_neg hne, hr]

/-- C9, witness: identity on equal strings, fallback on the unknown GBP,
and the table rate applied on the EUR to USD pair of the spec scenario. -/
theorem C9_witness :
    mock_currency_conversion "USD" "USD" (1234/10) = 1234/10
    ∧ lookup_rate (str_upper "GBP") (str_upper "USD") = none
    ∧ mock_currency_conversion "GBP" "USD" 50 = 50
    ∧ ("EUR" : String) ≠ "USD"
    ∧ lookup_rate (str_upper "EUR") (str_upper "USD") = some (108/100)
    ∧ mock_currency_conversion "EUR" "USD" 100 = round2 (100 * (108/100)) := by
  refine ⟨(C9_conversion "USD" "USD" (1234/10)).1 rfl, rfl,
    (C9_conversion "GBP" "USD" 50).2.1 rfl, by decide, rfl,
    (C9_conversion "EUR" "USD" 100).2.2 (108/100) (by decide) rfl⟩

/-- C10: check_can_approve never reads the acting user company: replacing
that company by any other value leaves the result unchanged; and on a
non-terminal expense the check passes exactly when the user role is Admin
or matches the current step role, with the manager relationship required
only when that step is the first and asks for Manager, with no
company comparison anywhere. -/
theorem C10_company_ignored (rest : List UserRec) (u : UserRec) (c : String) (e : Expense) :
    check_can_approve ({ u with company_id := c } :: rest) u.id e
      = check_can_approve (u :: rest) u.id e
    ∧ (¬(e.status = "Approved" ∨ e.status = "Rejected") →
        ((check_can_approve (u :: rest) u.id e).1 = true ↔
          (u.role = "Admin"
           ∨ ∃ step, e.approval_flow[e.current_approver_index]? = some step
              ∧ u.role = step.role
              ∧ (e.current_approver_index = 0 → step.role = "Manager" →
                  manager_of (u :: rest) e.user_id = some u.id)))) := by
  have hrole1 : get_user_role ({ u with company_id := c } :: rest) u.id = some u.role := by
    simp [get_user_role, find_user]
  have hrole2 : get_user_role (u :: rest) u.id = some u.role := by
    simp [get_user_role, find_user]
  have hmgr : ∀ x, manager_of ({ u with company_id := c } :: rest) x
      = manager_of (u :: rest) x := by
    intro x
    by_cases hx : (u.id == x) = true
    · simp [manager_of, find_user, List.find?_cons_of_pos, hx]
    · simp only [manager_of, find_user]
      rw [List.find?_cons_of_neg _ (by simpa using hx),
        List.find?_cons_of_neg _ (by simpa using hx)]
  constructor
  · by_cases hterm : e.status = "Approved" ∨ e.status = "Rejected"
    · rw [check_can_approve_terminal _ _ _ hterm, check_can_approve_terminal _ _ _ hterm]
    · rw [check_can_approve_eq _ _ _ hterm, check_can_approve_eq _ _ _ hterm,
        hrole1, hrole2, hmgr]
  · intro hpend
    rw [check_allowed_iff _ _ _ hpend, hrole2]
    simp only [Option.some.injEq]

/-- C10, witness: a Finance user of another company is allowed on the
Finance step of an expense of company co-1, and changing that user company
to yet another value does not change the check result. -/
theorem C10_witness :
    finOther.company_id ≠ expStep1.company_id
    ∧ ¬(expStep1.status = "Approved" ∨ expStep1.status = "Rejected")
    ∧ check_can_approve ({ finOther with company_id := "co-999" } :: usersC) finOther.id expStep1
        = check_can_approve (finOther :: usersC) finOther.id expStep1
    ∧ (check_can_approve (finOther :: usersC) finOther.id expStep1).1 = true := by
  refine ⟨by decide, by decide, (C10_company_ignored usersC finOther "co-999" expStep1).1, ?_⟩
  refine ((C10_company_ignored usersC finOther "co-999" expStep1).2 (by decide)).mpr ?_
  exact Or.inr ⟨{ role := "Finance", step_name := "Finance Review" }, by decide, rfl, by decide⟩
